import Mathlib

/-!
Verification of the Voice-Audio-Segmentation core against its specification.

The definitions below are a shallow embedding of the Python sources under
`src/segmentation/`: sample indices are modelled as `Int` (Python integers),
seconds-valued configuration fields as `Rat` (the spec treats them as reals;
all values exercised here are exactly representable), and fallible code as
`Except`.  Filesystem side effects (directory creation, file writing) carry no
information that the verified claims observe and are dropped; everything else
follows the sources line by line.
-/

deriving instance DecidableEq for Except

attribute [local semireducible] Rat.mul Rat.add Rat.sub Rat.inv

namespace VAS

/-- Python `int(x)` applied to a real value: truncation toward zero. -/
def pyInt (q : ℚ) : ℤ :=
  if q < 0 then -(⌊-q⌋) else ⌊q⌋

/-- Python built-in `round(x)` to an integer: round half to even. -/
def pyRound (q : ℚ) : ℤ :=
  let n := ⌊q⌋
  let frac := q - n
  if frac < 1/2 then n
  else if 1/2 < frac then n + 1
  else if n % 2 = 0 then n else n + 1

/-- `utilities/math/time_conversion.py`: `seconds_to_samples(seconds, sample_rate)
= round(seconds * sample_rate)`. -/
def seconds_to_samples (seconds : ℚ) (sample_rate : ℤ) : ℤ :=
  pyRound (seconds * (sample_rate : ℚ))

/-- `settings/audio.py` `AudioSettings` (the fields the core reads). -/
structure AudioSettings where
  sample_rate_hz : ℤ
  channels : ℤ
  lufs_db : ℚ
deriving DecidableEq

/-- `settings/duration.py` `DurationSettings`. -/
structure DurationSettings where
  soft_lower_limit : ℚ
  soft_upper_limit : ℚ
  hard_lower_limit : ℚ
  hard_upper_limit : ℚ
  overlap : ℚ
  maximum_merge_gap_duration : ℚ
deriving DecidableEq

/-- `settings/implementations/silence.py` `SilenceStrategySettings`. -/
structure SilenceStrategySettings where
  top_db : ℚ
  minimum_silence_duration : ℚ
  frame_length : ℤ
  hop_length : ℤ
deriving DecidableEq

/-- `settings/file.py` `FileType` (the values the core uses). -/
inductive FileType where
  | wav
  | mp3
  | flac
  | aac
  | json
deriving DecidableEq

/-- Extension string of a `FileType` (its `StrEnum` value). -/
def FileType.ext : FileType → String
  | .wav => "wav"
  | .mp3 => "mp3"
  | .flac => "flac"
  | .aac => "aac"
  | .json => "json"

/-- `settings/file.py` `FileSettings`: exactly the fields declared by the
pydantic model (note: the model declares `output_in_subdirectories`, plural,
and declares no `output_segment_in_subdirectory` field). -/
structure FileSettings where
  output_directory : String
  output_in_subdirectories : Bool
  name_template : String
  file_format : FileType
  generate_manifest : Bool
  manifest_name_template : String
deriving DecidableEq

/-- Python attribute lookup of a `bool`-valued attribute on a `FileSettings`
instance.  The pydantic model forbids extra fields, so looking up a name that
is not a declared field raises `AttributeError`, modelled by `none`. -/
def FileSettings.boolAttr (fs : FileSettings) (name : String) : Option Bool :=
  if name = "output_in_subdirectories" then some fs.output_in_subdirectories
  else if name = "generate_manifest" then some fs.generate_manifest
  else none

/-- A raw segment dictionary `{"start": ..., "end": ...}` in sample
coordinates, as passed around by `strategy/base.py`.  The Python key `end` is
a Lean keyword, rendered here as `stop`. -/
structure Seg where
  start : ℤ
  stop : ℤ
deriving DecidableEq

/-- The segmentation errors observed by the verified claims.
`SilenceDetectionError`, `EmptySegmentationError` (and `TemplateError`) are
imported by the sources but their class definitions are absent from
`exceptions.py`.  Modelled from the spec: section 7 places them (together with
the classes that `exceptions.py` does define) under the `SegmentationError`
umbrella, with a single human-readable reason each.  `attributeError` models a
Python `AttributeError`, which is not a `SegmentationError`. -/
inductive SegError where
  | silenceDetection (details : String)
  | emptySegmentation (reason : String)
  | strategyError (strategy_name : String) (reason : String)
  | invalidTimestamp (start : ℚ) (stop : ℚ) (reason : String)
  | audioData (details : String)
  | templateError (template : String) (reason : String)
  | attributeError (name : String)
deriving DecidableEq

/-- Python `str(e)` of a modelled exception: the message built by each
constructor in `exceptions.py` (quotation marks around interpolated names are
elided; no claim observes them).  For the classes missing from
`exceptions.py`, modelled from the spec: `SilenceDetectionError(details)` and
`EmptySegmentationError(reason)` carry their argument as the message. -/
def SegError.msg : SegError → String
  | .silenceDetection details => details
  | .emptySegmentation reason => reason
  | .strategyError n reason => "Strategy " ++ n ++ " failed: " ++ reason
  | .invalidTimestamp s e reason =>
      "Invalid timestamp range [" ++ toString s ++ ", " ++ toString e ++ "]: " ++ reason
  | .audioData details => "Invalid audio data: " ++ details
  | .templateError t reason => "Template error for " ++ t ++ ": " ++ reason
  | .attributeError n => "FileSettings object has no attribute " ++ n

/-! ### The segment shaper (`strategy/base.py`) -/

/-- `base.py:284`: `soft_min_samples = int(soft_lower_limit * sample_rate_hz)`. -/
def soft_min_samples (a : AudioSettings) (d : DurationSettings) : ℤ :=
  pyInt (d.soft_lower_limit * (a.sample_rate_hz : ℚ))

/-- `base.py:287`: `hard_max_samples = int(hard_upper_limit * sample_rate_hz)`. -/
def hard_max_samples (a : AudioSettings) (d : DurationSettings) : ℤ :=
  pyInt (d.hard_upper_limit * (a.sample_rate_hz : ℚ))

/-- `base.py:291`: `target_samples = int((soft_lower_limit + soft_upper_limit) / 2 * sample_rate_hz)`. -/
def target_samples (a : AudioSettings) (d : DurationSettings) : ℤ :=
  pyInt ((d.soft_lower_limit + d.soft_upper_limit) / 2 * (a.sample_rate_hz : ℚ))

/-- `base.py:300`: `max_gap_samples = int(maximum_merge_gap_duration * sample_rate_hz)`. -/
def max_gap_samples (a : AudioSettings) (d : DurationSettings) : ℤ :=
  pyInt (d.maximum_merge_gap_duration * (a.sample_rate_hz : ℚ))

/-- `base.py:325` / `base.py:335`: a merge with a neighbor is taken when
`new_duration <= hard_max_samples and gap <= max_gap_samples`. -/
def admissible (a : AudioSettings) (d : DurationSettings) (gap new_duration : ℤ) : Prop :=
  new_duration ≤ hard_max_samples a d ∧ gap ≤ max_gap_samples a d

instance (a : AudioSettings) (d : DurationSettings) (gap new_duration : ℤ) :
    Decidable (admissible a d gap new_duration) :=
  inferInstanceAs (Decidable (_ ∧ _))

/-- `base.py:327` / `base.py:337`: `score = abs(new_duration - target_samples)`
(a float holding an exact integer value, modelled as the integer). -/
def mergeScore (a : AudioSettings) (d : DurationSettings) (new_duration : ℤ) : ℤ :=
  |new_duration - target_samples a d|

/-- Result state of a left merge at index `i`
(`base.py:351`: `left_segment["end"] = current["end"]; segments.pop(i); i -= 1`). -/
def leftMerged (segs : List Seg) (i : Nat) (l cur : Seg) : List Seg × Nat :=
  ((segs.set (i - 1) ⟨l.start, cur.stop⟩).eraseIdx i, i - 1)

/-- Result state of a right merge at index `i`
(`base.py:360`: `right_segment["start"] = current["start"]; segments.pop(i)`; `i` kept). -/
def rightMerged (segs : List Seg) (i : Nat) (cur r : Seg) : List Seg × Nat :=
  ((segs.set (i + 1) ⟨cur.start, r.stop⟩).eraseIdx i, i)

/-- One iteration of the `while i < len(segments)` loop of
`_merge_short_segments` (`base.py:305`).  `none` means the loop guard failed
and the loop exits; `some (segs, i)` is the state at the next iteration. -/
def mergeStep (a : AudioSettings) (d : DurationSettings) :
    List Seg × Nat → Option (List Seg × Nat)
  | (segs, i) =>
  match segs[i]? with
  | none => none
  | some cur =>
    if soft_min_samples a d ≤ cur.stop - cur.start then
      some (segs, i + 1)
    else
      match (if i = 0 then none else segs[i-1]?), segs[i+1]? with
      | none, none => some (segs, i + 1)
      | some l, none =>
        if admissible a d (cur.start - l.stop) (cur.stop - l.start) then
          some (leftMerged segs i l cur)
        else some (segs, i + 1)
      | none, some r =>
        if admissible a d (r.start - cur.stop) (r.stop - cur.start) then
          some (rightMerged segs i cur r)
        else some (segs, i + 1)
      | some l, some r =>
        if admissible a d (cur.start - l.stop) (cur.stop - l.start) ∧
            (¬ admissible a d (r.start - cur.stop) (r.stop - cur.start) ∨
              mergeScore a d (cur.stop - l.start) ≤ mergeScore a d (r.stop - cur.start)) then
          some (leftMerged segs i l cur)
        else if admissible a d (r.start - cur.stop) (r.stop - cur.start) then
          some (rightMerged segs i cur r)
        else some (segs, i + 1)

/-- Runs `mergeStep` for at most `fuel` iterations; returns the state reached.
The loop of `_merge_short_segments` always terminates within
`2 * segments.length - i` iterations (proved below), so the callers pass
enough fuel for the result to be the loop's exit state. -/
def mergeRun (a : AudioSettings) (d : DurationSettings) :
    Nat → List Seg × Nat → List Seg × Nat
  | 0, st => st
  | fuel + 1, st =>
    match mergeStep a d st with
    | none => st
    | some st' => mergeRun a d fuel st'

/-- `base.py:271` `_merge_short_segments`: early-returns `[]` on an empty
list, otherwise runs the merging scan from index 0 to completion. -/
def merge_short_segments (a : AudioSettings) (d : DurationSettings)
    (segments : List Seg) : List Seg :=
  match segments with
  | [] => []
  | _ => (mergeRun a d (2 * segments.length) (segments, 0)).1

/-- `base.py:240` `_apply_overlap`. -/
def apply_overlap (a : AudioSettings) (d : DurationSettings)
    (segments : List Seg) (audio_length_samples : ℤ) : List Seg :=
  if d.overlap ≤ 0 then segments
  else
    let padding_samples := seconds_to_samples (d.overlap / 2) a.sample_rate_hz
    segments.map fun s =>
      ⟨max 0 (s.start - padding_samples), min audio_length_samples (s.stop + padding_samples)⟩

/-- `base.py:191` `_process_raw_segments`: merge, pad, then keep exactly the
segments whose duration in seconds lies within the hard limits, converted to
`(start, end)` timestamps in seconds. -/
def process_raw_segments (a : AudioSettings) (d : DurationSettings)
    (segments : List Seg) (audio_length_samples : ℤ) : List (ℚ × ℚ) :=
  let merged := merge_short_segments a d segments
  let overlapped := apply_overlap a d merged audio_length_samples
  overlapped.filterMap fun s =>
    let duration : ℚ := ((s.stop - s.start : ℤ) : ℚ) / (a.sample_rate_hz : ℚ)
    if duration < d.hard_lower_limit then none
    else if d.hard_upper_limit < duration then none
    else some ((s.start : ℚ) / (a.sample_rate_hz : ℚ), (s.stop : ℚ) / (a.sample_rate_hz : ℚ))

/-! ### The silence strategy (`strategy/implementations/silence/strategy.py`) -/

/-- The body of the interval-merging `for` loop in
`segment_array_to_timestamps` (`strategy.py:76`), with `(cs, ce)` the running
`(current_start, current_end)` pair. -/
def gapMergeAux (minGap : ℤ) (cs ce : ℤ) : List (ℤ × ℤ) → List (ℤ × ℤ)
  | [] => [(cs, ce)]
  | (ns, ne) :: rest =>
    if ns - ce < minGap then gapMergeAux minGap cs ne rest
    else (cs, ce) :: gapMergeAux minGap ns ne rest

/-- The silence-gap merging step of `segment_array_to_timestamps`
(`strategy.py:66`): an empty input yields an empty output, otherwise the first
interval seeds the running pair. -/
def merge_silence_intervals (minGap : ℤ) : List (ℤ × ℤ) → List (ℤ × ℤ)
  | [] => []
  | (s, e) :: rest => gapMergeAux minGap s e rest

/-- The gap merge exactly as the silence strategy performs it, with
`minimum_gap_samples = int(minimum_silence_duration * sample_rate_hz)`
(`strategy.py:68`). -/
def code_gap_merge (a : AudioSettings) (ss : SilenceStrategySettings)
    (raw : List (ℤ × ℤ)) : List (ℤ × ℤ) :=
  merge_silence_intervals (pyInt (ss.minimum_silence_duration * (a.sample_rate_hz : ℚ))) raw

/-- The error message of `strategy.py:96`. -/
def emptyMsg : String :=
  "No valid segments after silence detection and processing. Try adjusting top_db, minimum_silence_duration, or duration constraints."

/-- `SilenceStrategy.segment_array_to_timestamps` (`strategy.py:45`).  The
`librosa.effects.split` call is an external collaborator; its outcome is the
`splitResult` argument (`Except.error e` models it raising an exception whose
`str` is `e`).  `audioLen` is `len(audio)`. -/
def silence_segment_array_to_timestamps (a : AudioSettings) (d : DurationSettings)
    (ss : SilenceStrategySettings) (splitResult : Except String (List (ℤ × ℤ)))
    (audioLen : ℤ) : Except SegError (List (ℚ × ℚ)) :=
  match splitResult with
  | .error e => .error (.silenceDetection e)
  | .ok raw_intervals =>
    let merged_intervals := code_gap_merge a ss raw_intervals
    let segments : List Seg := merged_intervals.map fun p => ⟨p.1, p.2⟩
    let result := process_raw_segments a d segments audioLen
    if result = [] then .error (.emptySegmentation emptyMsg)
    else .ok result

/-! ### Reference definition from the spec (for claim C4) -/

/-- Modelled from the spec, section 4.3 (refinement reference for C4): merge
rule body — "while the next interval's start minus the current interval's end
is strictly less than `min_gap_samples`, extend the current interval's end to
the next interval's end; otherwise, emit current and advance". -/
def referenceGapMergeAux (min_gap_samples : ℤ) (currentStart currentEnd : ℤ) :
    List (ℤ × ℤ) → List (ℤ × ℤ)
  | [] => [(currentStart, currentEnd)]
  | (nextStart, nextEnd) :: later =>
    if nextStart - currentEnd < min_gap_samples then
      referenceGapMergeAux min_gap_samples currentStart nextEnd later
    else
      (currentStart, currentEnd) :: referenceGapMergeAux min_gap_samples nextStart nextEnd later

/-- Modelled from the spec, section 4.3 (refinement reference for C4):
"iterate intervals in order" with the merge rule above; an empty input list
produces an empty output list. -/
def referenceGapMerge (min_gap_samples : ℤ) : List (ℤ × ℤ) → List (ℤ × ℤ)
  | [] => []
  | (s, e) :: rest => referenceGapMergeAux min_gap_samples s e rest

/-! ### The per-segment write loop (`strategy/base.py:61` and its helpers) -/

/-- `pathlib.Path(name).stem` for the names the write loop builds (the final
path component without its last extension; a lone leading dot is not an
extension).  External path library behavior, modelled for plain names. -/
def pathStem (name : String) : String :=
  let base := (name.splitOn "/").getLastD name
  let parts := base.splitOn "."
  if parts.length ≤ 1 then base
  else if parts.headD "" = "" ∧ parts.length = 2 then base
  else String.intercalate "." parts.dropLast

/-- `utilities/output_path_builder.py` `build_output_directory`, as a pure
path computation (component list).  The `mkdir` side effect is dropped; the
`ConfigurationError` branches cannot fire on this call path because
`base.py:105` always passes both `original_name` and `segment_index`. -/
def build_output_directory (output_directory : String)
    (output_in_subdirectory : Bool) (output_segment_in_subdirectory : Bool)
    (original_name : String) (segment_index : Nat) : List String :=
  [output_directory]
    ++ (if output_in_subdirectory then [pathStem original_name] else [])
    ++ (if output_segment_in_subdirectory then ["segment_" ++ toString segment_index] else [])

/-- `utilities/output_path_builder.py` `build_path`: joins. -/
def build_path (output_directory : List String) (filename : String) : List String :=
  output_directory ++ [filename]

/-- `utilities/filename_formatter.py` `format_filename`:
`template.format(original_name=..., segment_index=...)` plus the extension.
Substitution of the two recognized placeholders is modelled by string
replacement; a template that still holds a brace afterwards has an
unrecognized or malformed placeholder, which `str.format` rejects — that case
becomes the `TemplateError` of the source (whose class is absent from
`exceptions.py`; modelled from the spec, section 4.7). -/
def format_filename (original_name : String) (segment_index : Nat)
    (template : String) (file_format : FileType) : Except SegError String :=
  let file_name :=
    (template.replace "{original_name}" original_name).replace
      "{segment_index}" (toString segment_index)
  if file_name.contains (Char.ofNat 123) ∨ file_name.contains (Char.ofNat 125) then
    .error (.templateError template "Missing placeholder")
  else .ok (file_name ++ "." ++ file_format.ext)

/-- Length of the Python slice `audio[s:e]` of a buffer of `n` samples, for
the non-negative indices produced by `seconds_to_samples` on validated
timestamps. -/
def pySliceLen (n s e : ℤ) : ℤ :=
  max 0 (min n e - min n s)

/-- The body of the `for index, (start, end) in enumerate(timestamps)` loop of
`segment_array_to_files` (`base.py:86`), iterated over the remaining
timestamps.  `acc` is the `segments_data` mapping accumulated so far (an
insertion-ordered association list, like a Python dict).  Writing the segment
and the manifest are side effects dropped by the model, except for the
`AudioDataError` that `write_segment` raises on an empty slice
(`segment_writer.py:22`). -/
def filesLoop (a : AudioSettings) (fs : FileSettings) (audioLen : ℤ)
    (original_name : String) : List (ℚ × ℚ) → Nat → List (String × List String) →
    Except SegError (List (String × List String))
  | [], _, acc => .ok acc
  | (start, stop) :: rest, index, acc =>
    if start < 0 ∨ stop < 0 then
      .error (.invalidTimestamp start stop "Timestamps cannot be negative")
    else if stop ≤ start then
      .error (.invalidTimestamp start stop "Start time must be before end time")
    else if (audioLen : ℚ) / (a.sample_rate_hz : ℚ) < stop then
      .error (.invalidTimestamp start stop "End time exceeds audio duration")
    else
      let start_index := seconds_to_samples start a.sample_rate_hz
      let end_index := seconds_to_samples stop a.sample_rate_hz
      match fs.boolAttr "output_in_subdirectory" with
      | none => .error (.attributeError "output_in_subdirectory")
      | some in_subdirectory =>
        match fs.boolAttr "output_segment_in_subdirectory" with
        | none => .error (.attributeError "output_segment_in_subdirectory")
        | some segment_in_subdirectory =>
          let output_directory := build_output_directory fs.output_directory
            in_subdirectory segment_in_subdirectory original_name index
          match format_filename original_name index fs.name_template fs.file_format with
          | .error err => .error err
          | .ok segment_filename =>
            match format_filename original_name index fs.manifest_name_template FileType.json with
            | .error err => .error err
            | .ok _manifest_filename =>
              let segment_path := build_path output_directory segment_filename
              if pySliceLen audioLen start_index end_index = 0 then
                .error (.audioData "Cannot write empty audio segment")
              else if a.sample_rate_hz ≤ 0 then
                .error (.audioData ("Invalid sample rate: " ++ toString a.sample_rate_hz))
              else
                filesLoop a fs audioLen original_name rest (index + 1)
                  (acc ++ [(segment_filename, segment_path)])

/-- `base.py:61` `segment_array_to_files`.  The `segment_array_to_timestamps`
call is the `timestampsResult` argument; `base.py:75` wraps any exception it
raises as `StrategyError(self.__class__.__name__, "Failed to generate
timestamps: " + str(e))`, then the write loop runs over the timestamps. -/
def segment_array_to_files (a : AudioSettings) (fs : FileSettings)
    (className : String) (timestampsResult : Except SegError (List (ℚ × ℚ)))
    (audioLen : ℤ) (original_name : String) :
    Except SegError (List (String × List String)) :=
  match timestampsResult with
  | .error e =>
      .error (.strategyError className ("Failed to generate timestamps: " ++ e.msg))
  | .ok timestamps => filesLoop a fs audioLen original_name timestamps 0 []

/-- `segment_array_to_files` as invoked on a `SilenceStrategy` instance:
the timestamps come from `silence_segment_array_to_timestamps` and the class
name is `"SilenceStrategy"`. -/
def silence_segment_array_to_files (a : AudioSettings) (d : DurationSettings)
    (ss : SilenceStrategySettings) (fs : FileSettings)
    (splitResult : Except String (List (ℤ × ℤ))) (audioLen : ℤ)
    (original_name : String) : Except SegError (List (String × List String)) :=
  segment_array_to_files a fs "SilenceStrategy"
    (silence_segment_array_to_timestamps a d ss splitResult audioLen)
    audioLen original_name

/-! ### Default configuration values (`settings/*.py` `Field(default=...)`) -/

/-- Defaults of `AudioSettings`. -/
def defaultAudio : AudioSettings :=
  { sample_rate_hz := 16000, channels := 1, lufs_db := -23 }

/-- Defaults of `DurationSettings`. -/
def defaultDuration : DurationSettings :=
  { soft_lower_limit := 10, soft_upper_limit := 15, hard_lower_limit := 5,
    hard_upper_limit := 30, overlap := 1/2, maximum_merge_gap_duration := 1 }

/-- Defaults of `SilenceStrategySettings`. -/
def defaultSilence : SilenceStrategySettings :=
  { top_db := 30, minimum_silence_duration := 1/2, frame_length := 2048, hop_length := 512 }

/-- Defaults of `FileSettings` (with the fields the pydantic model actually
declares). -/
def defaultFile : FileSettings :=
  { output_directory := "output", output_in_subdirectories := true,
    name_template := "{original_name}_segment_{segment_index}",
    file_format := FileType.wav, generate_manifest := true,
    manifest_name_template := "{original_name}_manifest_{segment_index}" }

/-! ### List surgery lemmas for the merging scan -/

theorem set_length_append {α : Type} (xs : List α) (y c : α) (zs : List α) :
    (xs ++ y :: zs).set xs.length c = xs ++ c :: zs := by
  induction xs with
  | nil => rfl
  | cons a xs ih =>
    simp only [List.cons_append, List.length_cons, List.set_cons_succ, ih]

theorem eraseIdx_length_append {α : Type} (xs : List α) (y : α) (zs : List α) :
    (xs ++ y :: zs).eraseIdx xs.length = xs ++ zs := by
  induction xs with
  | nil => rfl
  | cons a xs ih =>
    simp only [List.cons_append, List.length_cons, List.eraseIdx_cons_succ, ih]

theorem decomp_two {α : Type} {l : List α} {j : ℕ} {x y : α}
    (hx : l[j]? = some x) (hy : l[j+1]? = some y) :
    l = l.take j ++ x :: y :: l.drop (j+2) ∧ (l.take j).length = j := by
  obtain ⟨hj, hxe⟩ := List.getElem?_eq_some.mp hx
  obtain ⟨hj1, hye⟩ := List.getElem?_eq_some.mp hy
  refine ⟨?_, by simp [List.length_take]; omega⟩
  conv_lhs => rw [← List.take_append_drop j l]
  rw [List.drop_eq_getElem_cons hj, hxe, List.drop_eq_getElem_cons hj1, hye]

/-- Surgery of a left merge: overwrite the first of two adjacent elements and
remove the second. -/
theorem surgery_left {α : Type} (T : List α) (b c n : α) (D : List α) :
    ((T ++ b :: c :: D).set T.length n).eraseIdx (T.length + 1) = T ++ n :: D := by
  rw [set_length_append]
  have := eraseIdx_length_append (T ++ [n]) c D
  simpa using this

/-- Surgery of a right merge: overwrite the second of two adjacent elements
and remove the first. -/
theorem surgery_right {α : Type} (T : List α) (b c n : α) (D : List α) :
    ((T ++ b :: c :: D).set (T.length + 1) n).eraseIdx T.length = T ++ n :: D := by
  have hset : (T ++ b :: c :: D).set (T.length + 1) n = T ++ b :: n :: D := by
    simp
  rw [hset]
  exact eraseIdx_length_append T b (n :: D)

/-- Decomposed form of the list and of the left-merge result at index `i`. -/
theorem leftMerged_eq {segs : List Seg} {i : ℕ} {l cur : Seg}
    (hi : i ≠ 0) (hl : segs[i-1]? = some l) (hc : segs[i]? = some cur) :
    segs = segs.take (i-1) ++ l :: cur :: segs.drop (i+1) ∧
    (leftMerged segs i l cur).1 =
      segs.take (i-1) ++ (⟨l.start, cur.stop⟩ : Seg) :: segs.drop (i+1) := by
  have h2 : segs[(i-1)+1]? = some cur := by
    have h1 : i - 1 + 1 = i := by omega
    rw [h1]; exact hc
  obtain ⟨hdec, hlen⟩ := decomp_two hl h2
  have hi2 : i - 1 + 2 = i + 1 := by omega
  rw [hi2] at hdec
  refine ⟨hdec, ?_⟩
  have key := surgery_left (segs.take (i-1)) l cur
    (⟨l.start, cur.stop⟩ : Seg) (segs.drop (i+1))
  rw [hlen] at key
  have hi1 : i - 1 + 1 = i := by omega
  rw [hi1] at key
  simp only [leftMerged]
  conv_lhs => rw [hdec]
  exact key

/-- Decomposed form of the list and of the right-merge result at index `i`. -/
theorem rightMerged_eq {segs : List Seg} {i : ℕ} {cur r : Seg}
    (hc : segs[i]? = some cur) (hr : segs[i+1]? = some r) :
    segs = segs.take i ++ cur :: r :: segs.drop (i+2) ∧
    (rightMerged segs i cur r).1 =
      segs.take i ++ (⟨cur.start, r.stop⟩ : Seg) :: segs.drop (i+2) := by
  obtain ⟨hdec, hlen⟩ := decomp_two hc hr
  refine ⟨hdec, ?_⟩
  have key := surgery_right (segs.take i) cur r
    (⟨cur.start, r.stop⟩ : Seg) (segs.drop (i+2))
  rw [hlen] at key
  simp only [rightMerged]
  conv_lhs => rw [hdec]
  exact key

/-- Outcome characterization of one iteration of the merging scan: the state
either advances past the current segment unchanged, left-merges, or
right-merges. -/
theorem mergeStep_cases {a : AudioSettings} {d : DurationSettings}
    {segs : List Seg} {i : ℕ} {segs' : List Seg} {i' : ℕ}
    (h : mergeStep a d (segs, i) = some (segs', i')) :
    i < segs.length ∧
    ((segs' = segs ∧ i' = i + 1) ∨
     (∃ l cur, i ≠ 0 ∧ segs[i-1]? = some l ∧ segs[i]? = some cur ∧
        segs' = (leftMerged segs i l cur).1 ∧ i' = i - 1) ∨
     (∃ cur r, segs[i]? = some cur ∧ segs[i+1]? = some r ∧
        segs' = (rightMerged segs i cur r).1 ∧ i' = i)) := by
  cases hx : segs[i]? with
  | none =>
    simp only [mergeStep, hx] at h
    exact Option.noConfusion h
  | some cur =>
    refine ⟨(List.getElem?_eq_some.mp hx).1, ?_⟩
    simp only [mergeStep, hx] at h
    split at h
    · injection h with h'
      injection h' with h1 h2
      exact Or.inl ⟨h1.symm, h2.symm⟩
    · split at h
      · injection h with h'
        injection h' with h1 h2
        exact Or.inl ⟨h1.symm, h2.symm⟩
      case _ l heq _ =>
        have hi : i ≠ 0 := by
          intro hi0
          rw [if_pos hi0] at heq
          exact Option.noConfusion heq
        rw [if_neg hi] at heq
        split at h
        · injection h with h'
          exact Or.inr (Or.inl ⟨l, cur, hi, heq, rfl,
            (congrArg Prod.fst h').symm, (congrArg Prod.snd h').symm⟩)
        · injection h with h'
          injection h' with h1 h2
          exact Or.inl ⟨h1.symm, h2.symm⟩
      case _ r _ heq =>
        split at h
        · injection h with h'
          exact Or.inr (Or.inr ⟨cur, r, rfl, heq,
            (congrArg Prod.fst h').symm, (congrArg Prod.snd h').symm⟩)
        · injection h with h'
          injection h' with h1 h2
          exact Or.inl ⟨h1.symm, h2.symm⟩
      case _ l r heql heqr =>
        have hi : i ≠ 0 := by
          intro hi0
          rw [if_pos hi0] at heql
          exact Option.noConfusion heql
        rw [if_neg hi] at heql
        split at h
        · injection h with h'
          exact Or.inr (Or.inl ⟨l, cur, hi, heql, rfl,
            (congrArg Prod.fst h').symm, (congrArg Prod.snd h').symm⟩)
        · split at h
          · injection h with h'
            exact Or.inr (Or.inr ⟨cur, r, rfl, heqr,
              (congrArg Prod.fst h').symm, (congrArg Prod.snd h').symm⟩)
          · injection h with h'
            injection h' with h1 h2
            exact Or.inl ⟨h1.symm, h2.symm⟩

/-- Replacing two adjacent elements of a chain by one that relates the same
way to both sides preserves the chain. -/
theorem chain'_replace2 {α : Type} {R : α → α → Prop} {xs ys : List α} {b c n : α}
    (h : List.Chain' R (xs ++ b :: c :: ys))
    (h1 : ∀ x, R x b → R x n) (h2 : ∀ y, R c y → R n y) :
    List.Chain' R (xs ++ n :: ys) := by
  rw [List.chain'_append_cons_cons] at h
  obtain ⟨hxb, _, hcys⟩ := h
  rw [List.chain'_split]
  constructor
  · rw [List.chain'_append] at hxb ⊢
    refine ⟨hxb.1, List.chain'_singleton n, fun x hx y hy => ?_⟩
    simp only [List.head?_cons, Option.mem_def, Option.some.injEq] at hy
    subst hy
    exact h1 x (hxb.2.2 x hx b (by simp))
  · rw [List.chain'_cons'] at hcys ⊢
    exact ⟨fun y hy => h2 y (hcys.1 y hy), hcys.2⟩

/-- "Sorted and pairwise disjoint" for a list of half-open sample intervals:
each interval ends no later than the next begins. -/
def SortedDisjoint (l : List Seg) : Prop :=
  List.Chain' (fun x y => x.stop ≤ y.start) l

/-- Executable check for `SortedDisjoint`. -/
def sortedDisjointB : List Seg → Bool
  | [] => true
  | [_] => true
  | x :: y :: rest => (decide (x.stop ≤ y.start)) && sortedDisjointB (y :: rest)

theorem sortedDisjointB_iff : ∀ (l : List Seg), sortedDisjointB l = true ↔ SortedDisjoint l
  | [] => by simp [sortedDisjointB, SortedDisjoint]
  | [x] => by simp [sortedDisjointB, SortedDisjoint]
  | x :: y :: rest => by
    have ih := sortedDisjointB_iff (y :: rest)
    simp only [sortedDisjointB, Bool.and_eq_true, decide_eq_true_eq, SortedDisjoint,
      List.chain'_cons] at ih ⊢
    rw [ih]

instance (l : List Seg) : Decidable (SortedDisjoint l) :=
  decidable_of_iff _ (sortedDisjointB_iff l)

/-- Replacing two adjacent segments by their merged span preserves order,
well-formedness and coverage of the replaced segments. -/
theorem replace2_invariants {T D : List Seg} {b c n : Seg}
    (hch : SortedDisjoint (T ++ b :: c :: D))
    (hle : ∀ s ∈ T ++ b :: c :: D, s.start ≤ s.stop)
    (hnstart : n.start = b.start) (hnstop : n.stop = c.stop) :
    SortedDisjoint (T ++ n :: D) ∧
    (∀ s ∈ T ++ n :: D, s.start ≤ s.stop) ∧
    (∀ s ∈ T ++ b :: c :: D, ∃ t ∈ T ++ n :: D, t.start ≤ s.start ∧ s.stop ≤ t.stop) ∧
    (∀ t ∈ T ++ n :: D, ∃ u ∈ T ++ b :: c :: D, ∃ v ∈ T ++ b :: c :: D,
      t.start = u.start ∧ t.stop = v.stop) ∧
    ((∀ s ∈ T ++ b :: c :: D, s.start < s.stop) → ∀ s ∈ T ++ n :: D, s.start < s.stop) := by
  have hbc : b.stop ≤ c.start := (List.chain'_append_cons_cons.mp hch).2.1
  have hble : b.start ≤ b.stop := hle b (by simp)
  have hcle : c.start ≤ c.stop := hle c (by simp)
  refine ⟨?_, ?_, ?_, ?_, ?_⟩
  · exact chain'_replace2 hch
      (fun x hxb => by rw [hnstart]; exact hxb)
      (fun y hcy => by rw [hnstop]; exact hcy)
  · intro s hs
    simp only [List.mem_append, List.mem_cons] at hs
    rcases hs with hs | hs | hs
    · exact hle s (by simp [hs])
    · subst hs
      rw [hnstart, hnstop]
      exact hble.trans (hbc.trans hcle)
    · exact hle s (by simp [hs])
  · intro s hs
    simp only [List.mem_append, List.mem_cons] at hs
    rcases hs with hs | hs | hs | hs
    · exact ⟨s, by simp [hs], le_refl _, le_refl _⟩
    · subst hs
      exact ⟨n, by simp, by rw [hnstart], by rw [hnstop]; exact hbc.trans hcle⟩
    · subst hs
      exact ⟨n, by simp, by rw [hnstart]; exact hble.trans hbc, by rw [hnstop]⟩
    · exact ⟨s, by simp [hs], le_refl _, le_refl _⟩
  · intro t ht
    simp only [List.mem_append, List.mem_cons] at ht
    rcases ht with ht | ht | ht
    · exact ⟨t, by simp [ht], t, by simp [ht], rfl, rfl⟩
    · subst ht
      exact ⟨b, by simp, c, by simp, hnstart, hnstop⟩
    · exact ⟨t, by simp [ht], t, by simp [ht], rfl, rfl⟩
  · intro hstrict s hs
    simp only [List.mem_append, List.mem_cons] at hs
    rcases hs with hs | hs | hs
    · exact hstrict s (by simp [hs])
    · subst hs
      rw [hnstart, hnstop]
      calc b.start < b.stop := hstrict b (by simp)
        _ ≤ c.start := hbc
        _ < c.stop := hstrict c (by simp)
    · exact hstrict s (by simp [hs])

/-- One iteration of the merging scan preserves sortedness and
well-formedness, only grows surviving segments, and only reuses endpoints of
input segments. -/
theorem mergeStep_invariants {a : AudioSettings} {d : DurationSettings}
    {segs : List Seg} {i : ℕ} {segs' : List Seg} {i' : ℕ}
    (h : mergeStep a d (segs, i) = some (segs', i'))
    (hch : SortedDisjoint segs)
    (hle : ∀ s ∈ segs, s.start ≤ s.stop) :
    SortedDisjoint segs' ∧
    (∀ s ∈ segs', s.start ≤ s.stop) ∧
    (∀ s ∈ segs, ∃ t ∈ segs', t.start ≤ s.start ∧ s.stop ≤ t.stop) ∧
    (∀ t ∈ segs', ∃ u ∈ segs, ∃ v ∈ segs, t.start = u.start ∧ t.stop = v.stop) ∧
    ((∀ s ∈ segs, s.start < s.stop) → ∀ s ∈ segs', s.start < s.stop) := by
  obtain ⟨hilen, hcase⟩ := mergeStep_cases h
  rcases hcase with ⟨hs', _⟩ | ⟨l, cur, hi, hl, hc, hs', _⟩ | ⟨cur, r, hc, hr, hs', _⟩
  · subst hs'
    exact ⟨hch, hle, fun s hs => ⟨s, hs, le_refl _, le_refl _⟩,
      fun t ht => ⟨t, ht, t, ht, rfl, rfl⟩, fun hstrict => hstrict⟩
  · obtain ⟨hdec, hres⟩ := leftMerged_eq hi hl hc
    generalize hT : segs.take (i-1) = T at hdec hres
    generalize hD : segs.drop (i+1) = D at hdec hres
    subst hdec
    have hseq : segs' = T ++ (⟨l.start, cur.stop⟩ : Seg) :: D := hs'.trans hres
    subst hseq
    exact replace2_invariants hch hle rfl rfl
  · obtain ⟨hdec, hres⟩ := rightMerged_eq hc hr
    generalize hT : segs.take i = T at hdec hres
    generalize hD : segs.drop (i+2) = D at hdec hres
    subst hdec
    have hseq : segs' = T ++ (⟨cur.start, r.stop⟩ : Seg) :: D := hs'.trans hres
    subst hseq
    exact replace2_invariants hch hle rfl rfl

/-- The loop measure `2 * len(segments) - i` strictly decreases at every
iteration of the merging scan. -/
theorem mergeStep_measure {a : AudioSettings} {d : DurationSettings}
    {segs : List Seg} {i : ℕ} {segs' : List Seg} {i' : ℕ}
    (h : mergeStep a d (segs, i) = some (segs', i')) :
    2 * segs'.length - i' < 2 * segs.length - i := by
  obtain ⟨hilen, hcase⟩ := mergeStep_cases h
  rcases hcase with ⟨hs', hi'⟩ | ⟨l, cur, hi, hl, hc, hs', hi'⟩ | ⟨cur, r, hc, hr, hs', hi'⟩
  · subst hs'; subst hi'; omega
  · subst hs'; subst hi'
    have hlen : (leftMerged segs i l cur).1.length = segs.length - 1 := by
      simp [leftMerged, List.length_eraseIdx, List.length_set, hilen]
    rw [hlen]; omega
  · subst hs'
    have h1 : i + 1 < segs.length := (List.getElem?_eq_some.mp hr).1
    have hlen : (rightMerged segs i cur r).1.length = segs.length - 1 := by
      simp [rightMerged, List.length_eraseIdx, List.length_set, hilen]
    rw [hlen]
    omega

/-- With fuel at least the measure, the scan reaches a state where the loop
guard fails. -/
theorem mergeRun_exits (a : AudioSettings) (d : DurationSettings) :
    ∀ (fuel : ℕ) (st : List Seg × Nat), 2 * st.1.length - st.2 ≤ fuel →
      mergeStep a d (mergeRun a d fuel st) = none := by
  intro fuel
  induction fuel with
  | zero =>
    intro st hst
    obtain ⟨segs, i⟩ := st
    simp only [mergeRun]
    have hlen : segs.length ≤ i := by
      simp only at hst
      omega
    have hx : segs[i]? = none := List.getElem?_eq_none hlen
    simp [mergeStep, hx]
  | succ fuel ih =>
    intro st hst
    simp only [mergeRun]
    cases hx : mergeStep a d st with
    | none => exact hx
    | some st' =>
      obtain ⟨segs, i⟩ := st
      obtain ⟨segs', i'⟩ := st'
      apply ih
      have hdec := mergeStep_measure hx
      simp only at hst ⊢
      omega

/-- Running the merging scan preserves sortedness and well-formedness, only
grows surviving segments, and only reuses endpoints of input segments. -/
theorem mergeRun_invariants (a : AudioSettings) (d : DurationSettings) :
    ∀ (fuel : ℕ) (st : List Seg × Nat), SortedDisjoint st.1 →
      (∀ s ∈ st.1, s.start ≤ s.stop) →
      SortedDisjoint (mergeRun a d fuel st).1 ∧
      (∀ s ∈ (mergeRun a d fuel st).1, s.start ≤ s.stop) ∧
      (∀ s ∈ st.1, ∃ t ∈ (mergeRun a d fuel st).1, t.start ≤ s.start ∧ s.stop ≤ t.stop) ∧
      (∀ t ∈ (mergeRun a d fuel st).1, ∃ u ∈ st.1, ∃ v ∈ st.1,
        t.start = u.start ∧ t.stop = v.stop) ∧
      ((∀ s ∈ st.1, s.start < s.stop) → ∀ s ∈ (mergeRun a d fuel st).1, s.start < s.stop) := by
  intro fuel
  induction fuel with
  | zero =>
    intro st hch hle
    simp only [mergeRun]
    exact ⟨hch, hle, fun s hs => ⟨s, hs, le_refl _, le_refl _⟩,
      fun t ht => ⟨t, ht, t, ht, rfl, rfl⟩, fun hstrict => hstrict⟩
  | succ fuel ih =>
    intro st hch hle
    simp only [mergeRun]
    cases hx : mergeStep a d st with
    | none =>
      exact ⟨hch, hle, fun s hs => ⟨s, hs, le_refl _, le_refl _⟩,
        fun t ht => ⟨t, ht, t, ht, rfl, rfl⟩, fun hstrict => hstrict⟩
    | some st' =>
      obtain ⟨segs, i⟩ := st
      obtain ⟨segs', i'⟩ := st'
      obtain ⟨hch', hle', hgrow, hends, hstrict⟩ := mergeStep_invariants hx hch hle
      obtain ⟨hch2, hle2, hgrow2, hends2, hstrict2⟩ := ih (segs', i') hch' hle'
      refine ⟨hch2, hle2, ?_, ?_, ?_⟩
      · intro s hs
        obtain ⟨t, ht, hts, hst⟩ := hgrow s hs
        obtain ⟨t2, ht2, ht2t, htt2⟩ := hgrow2 t ht
        exact ⟨t2, ht2, ht2t.trans hts, hst.trans htt2⟩
      · intro t ht
        obtain ⟨u', hu', v', hv', hu'e, hv'e⟩ := hends2 t ht
        obtain ⟨u, hu, _, _, hue, _⟩ := hends u' hu'
        obtain ⟨_, _, v, hv, _, hve⟩ := hends v' hv'
        exact ⟨u, hu, v, hv, hu'e.trans hue, hv'e.trans hve⟩
      · intro hst
        exact hstrict2 (hstrict hst)

/-- `_merge_short_segments` preserves sortedness and well-formedness, only
grows surviving segments, and only reuses endpoints of input segments. -/
theorem merge_short_segments_invariants (a : AudioSettings) (d : DurationSettings)
    (segs : List Seg) (hch : SortedDisjoint segs)
    (hle : ∀ s ∈ segs, s.start ≤ s.stop) :
    SortedDisjoint (merge_short_segments a d segs) ∧
    (∀ s ∈ merge_short_segments a d segs, s.start ≤ s.stop) ∧
    (∀ s ∈ segs, ∃ t ∈ merge_short_segments a d segs,
      t.start ≤ s.start ∧ s.stop ≤ t.stop) ∧
    (∀ t ∈ merge_short_segments a d segs, ∃ u ∈ segs, ∃ v ∈ segs,
      t.start = u.start ∧ t.stop = v.stop) ∧
    ((∀ s ∈ segs, s.start < s.stop) → ∀ s ∈ merge_short_segments a d segs,
      s.start < s.stop) := by
  match segs, hch, hle with
  | [], _, _ =>
    exact ⟨List.chain'_nil, by simp [merge_short_segments], by simp,
      by simp [merge_short_segments], by simp [merge_short_segments]⟩
  | x :: xs, hch, hle =>
    exact mergeRun_invariants a d (2 * (x :: xs).length) (x :: xs, 0) hch hle

theorem pyRound_nonneg {q : ℚ} (h : 0 ≤ q) : 0 ≤ pyRound q := by
  have hf : (0:ℤ) ≤ ⌊q⌋ := Int.floor_nonneg.mpr h
  simp only [pyRound]
  split
  · exact hf
  · split
    · omega
    · split <;> omega

/-- Membership characterization for `_apply_overlap`. -/
theorem apply_overlap_mem {a : AudioSettings} {d : DurationSettings}
    {segs : List Seg} {L : ℤ} {t : Seg}
    (hmem : t ∈ apply_overlap a d segs L) :
    (d.overlap ≤ 0 ∧ t ∈ segs) ∨
    (0 < d.overlap ∧ ∃ s ∈ segs,
      t = ⟨max 0 (s.start - seconds_to_samples (d.overlap / 2) a.sample_rate_hz),
           min L (s.stop + seconds_to_samples (d.overlap / 2) a.sample_rate_hz)⟩) := by
  unfold apply_overlap at hmem
  split at hmem
  · exact Or.inl ⟨by assumption, hmem⟩
  · rw [List.mem_map] at hmem
    obtain ⟨s, hs, hst⟩ := hmem
    exact Or.inr ⟨by linarith [not_le.mp (by assumption : ¬ d.overlap ≤ 0)],
      s, hs, hst.symm⟩

/-- Overlap padding keeps well-formed in-bounds segments well-formed and in
bounds. -/
theorem apply_overlap_bounds {a : AudioSettings} {d : DurationSettings}
    {segs : List Seg} {L : ℤ} (hrate : 0 < a.sample_rate_hz)
    (hb : ∀ s ∈ segs, 0 ≤ s.start ∧ s.start < s.stop ∧ s.stop ≤ L) :
    ∀ t ∈ apply_overlap a d segs L, 0 ≤ t.start ∧ t.start < t.stop ∧ t.stop ≤ L := by
  intro t hmem
  rcases apply_overlap_mem hmem with ⟨_, hs⟩ | ⟨hov, s, hs, rfl⟩
  · exact hb t hs
  · obtain ⟨h0, hlt, hL⟩ := hb s hs
    set p := seconds_to_samples (d.overlap / 2) a.sample_rate_hz with hp
    have hpad : 0 ≤ p := by
      rw [hp]
      apply pyRound_nonneg
      have hr : (0:ℚ) < (a.sample_rate_hz : ℚ) := by exact_mod_cast hrate
      have h2 : (0:ℚ) ≤ d.overlap / 2 := by positivity
      positivity
    refine ⟨le_max_left _ _, ?_, min_le_left _ _⟩
    have h1 : max 0 (s.start - p) ≤ s.start := max_le h0 (by omega)
    have h2 : s.stop ≤ min L (s.stop + p) := le_min hL (by omega)
    exact h1.trans_lt (hlt.trans_le h2)

/-- Membership characterization of the hard-limit filter of
`_process_raw_segments`. -/
theorem process_raw_mem {a : AudioSettings} {d : DurationSettings}
    {segs : List Seg} {L : ℤ} {p : ℚ × ℚ}
    (hp : p ∈ process_raw_segments a d segs L) :
    ∃ s ∈ apply_overlap a d (merge_short_segments a d segs) L,
      p = ((s.start : ℚ) / (a.sample_rate_hz : ℚ), (s.stop : ℚ) / (a.sample_rate_hz : ℚ)) ∧
      d.hard_lower_limit ≤ ((s.stop - s.start : ℤ) : ℚ) / (a.sample_rate_hz : ℚ) ∧
      ((s.stop - s.start : ℤ) : ℚ) / (a.sample_rate_hz : ℚ) ≤ d.hard_upper_limit := by
  simp only [process_raw_segments, List.mem_filterMap] at hp
  obtain ⟨s, hs, hfs⟩ := hp
  refine ⟨s, hs, ?_⟩
  split at hfs
  · exact Option.noConfusion hfs
  · split at hfs
    · exact Option.noConfusion hfs
    · exact ⟨(Option.some.inj hfs).symm, not_lt.mp (by assumption),
        not_lt.mp (by assumption)⟩

/-- Rounding half to even never exceeds the argument by more than a half. -/
theorem pyRound_le (q : ℚ) : (pyRound q : ℚ) ≤ q + 1/2 := by
  have hfl : ((⌊q⌋ : ℤ) : ℚ) ≤ q := Int.floor_le q
  simp only [pyRound]
  split
  · linarith
  · rename_i h1
    split
    · rename_i h2
      push_cast at h2 ⊢
      linarith
    · rename_i h2
      push_cast at h1 h2 ⊢
      split
      · linarith
      · linarith

/-! ### Claims -/

/-- **C10.** For every sorted, pairwise-disjoint input list (of well-formed
intervals), the output of `_merge_short_segments` is again sorted and pairwise
disjoint, and every input interval is contained in some output interval:
merging only extends intervals across gaps, so no detected non-silence is
dropped at the merge stage.  Sorted-and-pairwise-disjoint for half-open sample
intervals is `SortedDisjoint`: each interval ends no later than the next
begins. -/
theorem C10_merge_sorted_disjoint_covering (a : AudioSettings)
    (d : DurationSettings) (segs : List Seg) (hch : SortedDisjoint segs)
    (hwf : ∀ s ∈ segs, s.start ≤ s.stop) :
    SortedDisjoint (merge_short_segments a d segs) ∧
    ∀ s ∈ segs, ∃ t ∈ merge_short_segments a d segs,
      t.start ≤ s.start ∧ s.stop ≤ t.stop := by
  obtain ⟨h1, _, h3, _, _⟩ := merge_short_segments_invariants a d segs hch hwf
  exact ⟨h1, h3⟩

/-- Witness for C10 at a concrete sorted input. -/
theorem C10_witness :
    SortedDisjoint (merge_short_segments defaultAudio defaultDuration
      [⟨0, 10⟩, ⟨20, 30⟩]) ∧
    ∀ s ∈ ([⟨0, 10⟩, ⟨20, 30⟩] : List Seg),
      ∃ t ∈ merge_short_segments defaultAudio defaultDuration [⟨0, 10⟩, ⟨20, 30⟩],
        t.start ≤ s.start ∧ s.stop ≤ t.stop :=
  C10_merge_sorted_disjoint_covering defaultAudio defaultDuration
    [⟨0, 10⟩, ⟨20, 30⟩] (by decide) (by decide)

/-- **C9.** `_merge_short_segments` terminates on every finite input list:
each iteration of the scan either advances the index past an acceptable or
unmergeable segment, or removes one element (decrementing the index by one on
a left merge, keeping it on a right merge), so the measure
`2·len(segments) − i` strictly decreases; consequently running the scan with
fuel at least the starting measure reaches the state where the loop guard
fails, and the loop cannot run forever. -/
theorem C9_merge_terminates (a : AudioSettings) (d : DurationSettings) :
    (∀ (segs : List Seg) (i : ℕ) (segs' : List Seg) (i' : ℕ),
      mergeStep a d (segs, i) = some (segs', i') →
      2 * segs'.length - i' < 2 * segs.length - i) ∧
    (∀ (fuel : ℕ) (st : List Seg × Nat), 2 * st.1.length - st.2 ≤ fuel →
      mergeStep a d (mergeRun a d fuel st) = none) :=
  ⟨fun _ _ _ _ h => mergeStep_measure h, fun fuel st h => mergeRun_exits a d fuel st h⟩

/-- Witness for C9 at a concrete step and a concrete run. -/
theorem C9_witness :
    2 * ([⟨0, 10⟩] : List Seg).length - 1 < 2 * ([⟨0, 10⟩] : List Seg).length - 0 ∧
    mergeStep defaultAudio defaultDuration
      (mergeRun defaultAudio defaultDuration 2 ([⟨0, 10⟩], 0)) = none :=
  ⟨(C9_merge_terminates defaultAudio defaultDuration).1 [⟨0, 10⟩] 0 [⟨0, 10⟩] 1
      (by decide),
   (C9_merge_terminates defaultAudio defaultDuration).2 2 ([⟨0, 10⟩], 0) (by decide)⟩

/-- Configuration used by the C1 counterexample: defaults with
`hard_lower_limit = 0` and `overlap = 0` (allowed by the claim, which only
requires `0 ≤ hard_lower ≤ hard_upper`). -/
def cfgC1 : DurationSettings :=
  { soft_lower_limit := 10, soft_upper_limit := 15, hard_lower_limit := 0,
    hard_upper_limit := 30, overlap := 0, maximum_merge_gap_duration := 1 }

/-- **C1, counterexample.**  The claim as frozen quantifies over *every* input
interval list whose intervals satisfy `0 ≤ start < end ≤ audio_length_samples`
— without requiring the list to be sorted.  On the unsorted list
`[(80000, 160000), (0, 80000)]` (each interval individually in bounds) with
`0 = hard_lower ≤ hard_upper`, the merger right-merges the first interval into
the second producing the empty span `(80000, 80000)`, and the shaper emits the
timestamp `(5, 5)`, violating `s < e`. -/
theorem C1_counterexample :
    (∀ s ∈ ([⟨80000, 160000⟩, ⟨0, 80000⟩] : List Seg),
      0 ≤ s.start ∧ s.start < s.stop ∧ s.stop ≤ 160000) ∧
    (0 ≤ cfgC1.hard_lower_limit ∧ cfgC1.hard_lower_limit ≤ cfgC1.hard_upper_limit) ∧
    ((5 : ℚ), (5 : ℚ)) ∈
      process_raw_segments defaultAudio cfgC1 [⟨80000, 160000⟩, ⟨0, 80000⟩] 160000 ∧
    ¬ ((5 : ℚ) < (5 : ℚ)) := by decide

/-- **C1 (amended).** For every **sorted, pairwise-disjoint** input interval
list whose intervals satisfy `0 ≤ start < end ≤ audio_length_samples`, every
positive sample rate, and every configuration with
`0 ≤ hard_lower ≤ hard_upper`, every timestamp `(s, e)` returned by the shaper
(`_process_raw_segments`) satisfies `0 ≤ s < e ≤ audio_length_samples / rate`
and `hard_lower ≤ e − s ≤ hard_upper`.  The sortedness hypothesis (always
satisfied by the silence detector's output) and the positive sample rate are
the amendments; without sortedness the counterexample above emits `s = e`. -/
theorem C1_amended (a : AudioSettings) (d : DurationSettings)
    (segs : List Seg) (L : ℤ)
    (hrate : 0 < a.sample_rate_hz)
    (hsorted : SortedDisjoint segs)
    (hb : ∀ s ∈ segs, 0 ≤ s.start ∧ s.start < s.stop ∧ s.stop ≤ L)
    (_hhl : 0 ≤ d.hard_lower_limit)
    (_hhu : d.hard_lower_limit ≤ d.hard_upper_limit) :
    ∀ p ∈ process_raw_segments a d segs L,
      0 ≤ p.1 ∧ p.1 < p.2 ∧ p.2 ≤ (L : ℚ) / (a.sample_rate_hz : ℚ) ∧
      d.hard_lower_limit ≤ p.2 - p.1 ∧ p.2 - p.1 ≤ d.hard_upper_limit := by
  intro p hp
  obtain ⟨s, hsmem, hpe, hdl, hdu⟩ := process_raw_mem hp
  have hwf : ∀ s ∈ segs, s.start ≤ s.stop := fun s hs => ((hb s hs).2.1).le
  obtain ⟨hch', hle', _, hends, hstrict⟩ :=
    merge_short_segments_invariants a d segs hsorted hwf
  have hmb : ∀ t ∈ merge_short_segments a d segs,
      0 ≤ t.start ∧ t.start < t.stop ∧ t.stop ≤ L := by
    intro t ht
    obtain ⟨u, hu, v, hv, hust, hvst⟩ := hends t ht
    refine ⟨hust ▸ (hb u hu).1, hstrict (fun x hx => (hb x hx).2.1) t ht,
      hvst ▸ (hb v hv).2.2⟩
  obtain ⟨h0, hlt, hL⟩ := apply_overlap_bounds hrate hmb s hsmem
  have hrq : (0 : ℚ) < (a.sample_rate_hz : ℚ) := by exact_mod_cast hrate
  have hdur : (s.stop : ℚ) / (a.sample_rate_hz : ℚ) -
      (s.start : ℚ) / (a.sample_rate_hz : ℚ) =
      ((s.stop - s.start : ℤ) : ℚ) / (a.sample_rate_hz : ℚ) := by
    push_cast
    ring
  subst hpe
  refine ⟨?_, ?_, ?_, ?_, ?_⟩
  · exact div_nonneg (by exact_mod_cast h0) hrq.le
  · have hlt2 : (s.start : ℚ) < (s.stop : ℚ) := by exact_mod_cast hlt
    show (s.start : ℚ) / (a.sample_rate_hz : ℚ) < (s.stop : ℚ) / (a.sample_rate_hz : ℚ)
    gcongr
  · have hL2 : (s.stop : ℚ) ≤ (L : ℚ) := by exact_mod_cast hL
    show (s.stop : ℚ) / (a.sample_rate_hz : ℚ) ≤ (L : ℚ) / (a.sample_rate_hz : ℚ)
    gcongr
  · show d.hard_lower_limit ≤ (s.stop : ℚ) / (a.sample_rate_hz : ℚ) -
      (s.start : ℚ) / (a.sample_rate_hz : ℚ)
    rw [hdur]
    exact hdl
  · show (s.stop : ℚ) / (a.sample_rate_hz : ℚ) -
      (s.start : ℚ) / (a.sample_rate_hz : ℚ) ≤ d.hard_upper_limit
    rw [hdur]
    exact hdu

/-- Witness for the amended C1 at a concrete sorted input (one 10-second
segment at the default configuration, which the shaper emits as `(0, 10)`). -/
theorem C1_witness :
    0 ≤ (0 : ℚ) ∧ (0 : ℚ) < (10 : ℚ) ∧
    (10 : ℚ) ≤ ((160000 : ℤ) : ℚ) / ((defaultAudio.sample_rate_hz : ℤ) : ℚ) ∧
    defaultDuration.hard_lower_limit ≤ (10 : ℚ) - (0 : ℚ) ∧
    (10 : ℚ) - (0 : ℚ) ≤ defaultDuration.hard_upper_limit :=
  C1_amended defaultAudio defaultDuration [⟨0, 160000⟩] 160000
    (by decide) (by decide) (by decide) (by decide) (by decide)
    ((0 : ℚ), (10 : ℚ)) (by decide)

/-- **C2.** For every scan position at a segment whose duration is below
`soft_min`: a neighbor merge is admissible iff the sample gap is `≤ max_gap`
and the merged duration is `≤ hard_max` (`admissible`), its score is
`|merged_duration − target|` (`mergeScore`); when at least one neighbor is
admissible the segment merges into the admissible neighbor with the lower
score, ties (`score_left = score_right`) going to the left neighbor; a left
merge sets `left.end` to the current end, removes the current segment and
decrements the scan index (`leftMerged`), while a right merge sets
`right.start` to the current start, removes the current segment and keeps the
index fixed so the enlarged segment is re-examined (`rightMerged`). -/
theorem C2_short_segment_merge_rule (a : AudioSettings) (d : DurationSettings)
    (segs : List Seg) (i : ℕ) (cur : Seg)
    (hc : segs[i]? = some cur)
    (hshort : cur.stop - cur.start < soft_min_samples a d) :
    (i = 0 → segs[i+1]? = none → mergeStep a d (segs, i) = some (segs, i + 1)) ∧
    (∀ r, i = 0 → segs[i+1]? = some r →
      ((admissible a d (r.start - cur.stop) (r.stop - cur.start) →
          mergeStep a d (segs, i) = some (rightMerged segs i cur r)) ∧
       (¬ admissible a d (r.start - cur.stop) (r.stop - cur.start) →
          mergeStep a d (segs, i) = some (segs, i + 1)))) ∧
    (∀ l, i ≠ 0 → segs[i-1]? = some l → segs[i+1]? = none →
      ((admissible a d (cur.start - l.stop) (cur.stop - l.start) →
          mergeStep a d (segs, i) = some (leftMerged segs i l cur)) ∧
       (¬ admissible a d (cur.start - l.stop) (cur.stop - l.start) →
          mergeStep a d (segs, i) = some (segs, i + 1)))) ∧
    (∀ l r, i ≠ 0 → segs[i-1]? = some l → segs[i+1]? = some r →
      ((admissible a d (cur.start - l.stop) (cur.stop - l.start) ∧
          (¬ admissible a d (r.start - cur.stop) (r.stop - cur.start) ∨
            mergeScore a d (cur.stop - l.start) ≤ mergeScore a d (r.stop - cur.start)) →
          mergeStep a d (segs, i) = some (leftMerged segs i l cur)) ∧
       (admissible a d (r.start - cur.stop) (r.stop - cur.start) ∧
          (¬ admissible a d (cur.start - l.stop) (cur.stop - l.start) ∨
            mergeScore a d (r.stop - cur.start) < mergeScore a d (cur.stop - l.start)) →
          mergeStep a d (segs, i) = some (rightMerged segs i cur r)) ∧
       (¬ admissible a d (cur.start - l.stop) (cur.stop - l.start) ∧
          ¬ admissible a d (r.start - cur.stop) (r.stop - cur.start) →
          mergeStep a d (segs, i) = some (segs, i + 1)))) := by
  have hnd : ¬ soft_min_samples a d ≤ cur.stop - cur.start := not_le.mpr hshort
  refine ⟨?_, ?_, ?_, ?_⟩
  · intro hi0 hr
    simp only [mergeStep, hc, if_neg hnd, if_pos hi0, hr]
  · intro r hi0 hr
    constructor
    · intro hadm
      simp only [mergeStep, hc, if_neg hnd, if_pos hi0, hr]
      rw [if_pos hadm]
    · intro hadm
      simp only [mergeStep, hc, if_neg hnd, if_pos hi0, hr]
      rw [if_neg hadm]
  · intro l hi0 hl hr
    constructor
    · intro hadm
      simp only [mergeStep, hc, if_neg hnd, if_neg hi0, hl, hr]
      rw [if_pos hadm]
    · intro hadm
      simp only [mergeStep, hc, if_neg hnd, if_neg hi0, hl, hr]
      rw [if_neg hadm]
  · intro l r hi0 hl hr
    refine ⟨?_, ?_, ?_⟩
    · intro hcond
      simp only [mergeStep, hc, if_neg hnd, if_neg hi0, hl, hr]
      rw [if_pos hcond]
    · intro hcond
      have hnotfirst : ¬ (admissible a d (cur.start - l.stop) (cur.stop - l.start) ∧
          (¬ admissible a d (r.start - cur.stop) (r.stop - cur.start) ∨
            mergeScore a d (cur.stop - l.start) ≤ mergeScore a d (r.stop - cur.start))) := by
        rintro ⟨hal, hor⟩
        rcases hcond.2 with hnal | hslt
        · exact hnal hal
        · rcases hor with hnar | hsle
          · exact hnar hcond.1
          · omega
      simp only [mergeStep, hc, if_neg hnd, if_neg hi0, hl, hr]
      rw [if_neg hnotfirst, if_pos hcond.1]
    · intro hcond
      have hnotfirst : ¬ (admissible a d (cur.start - l.stop) (cur.stop - l.start) ∧
          (¬ admissible a d (r.start - cur.stop) (r.stop - cur.start) ∨
            mergeScore a d (cur.stop - l.start) ≤ mergeScore a d (r.stop - cur.start))) := by
        rintro ⟨hal, _⟩
        exact hcond.1 hal
      simp only [mergeStep, hc, if_neg hnd, if_neg hi0, hl, hr]
      rw [if_neg hnotfirst, if_neg hcond.2]

/-- Witness for C2 at a concrete exact-tie input: both neighbors are
admissible with equal scores, and the merge goes left. -/
theorem C2_witness :
    mergeStep defaultAudio defaultDuration
      ([⟨0, 160000⟩, ⟨160000, 161000⟩, ⟨161000, 321000⟩], 1) =
      some ([⟨0, 161000⟩, ⟨161000, 321000⟩], 0) := by
  have h := C2_short_segment_merge_rule defaultAudio defaultDuration
    [⟨0, 160000⟩, ⟨160000, 161000⟩, ⟨161000, 321000⟩] 1 ⟨160000, 161000⟩
    (by decide) (by decide)
  have h4 := (h.2.2.2 ⟨0, 160000⟩ ⟨161000, 321000⟩ (by decide) (by decide) (by decide)).1
    (by constructor
        · decide
        · right
          decide)
  rw [h4]
  decide

/-- A singleton list passes through `_merge_short_segments` unchanged. -/
theorem merge_short_segments_singleton (a : AudioSettings) (d : DurationSettings)
    (s : Seg) : merge_short_segments a d [s] = [s] := by
  by_cases hd : soft_min_samples a d ≤ s.stop - s.start <;>
    simp [merge_short_segments, mergeRun, mergeStep, hd]

/-- The hard-limit filter on a singleton overlapped list keeps the segment
iff its padded duration lies within the hard limits. -/
theorem process_raw_singleton (a : AudioSettings) (d : DurationSettings)
    (s t : Seg) (L : ℤ) (happ : apply_overlap a d [s] L = [t]) :
    process_raw_segments a d [s] L =
      (if d.hard_lower_limit ≤ ((t.stop - t.start : ℤ) : ℚ) / (a.sample_rate_hz : ℚ) ∧
          ((t.stop - t.start : ℤ) : ℚ) / (a.sample_rate_hz : ℚ) ≤ d.hard_upper_limit then
        [((t.start : ℚ) / (a.sample_rate_hz : ℚ), (t.stop : ℚ) / (a.sample_rate_hz : ℚ))]
      else []) := by
  have hcast : ((t.stop - t.start : ℤ) : ℚ) = (t.stop : ℚ) - (t.start : ℚ) := by
    push_cast
    ring
  rw [hcast]
  simp only [process_raw_segments, merge_short_segments_singleton, happ]
  by_cases h1 : ((t.stop : ℚ) - (t.start : ℚ)) / (a.sample_rate_hz : ℚ) < d.hard_lower_limit
  · rw [if_neg (by rw [not_and_or, not_le]; exact Or.inl h1)]
    simp [List.filterMap_cons, h1]
  · by_cases h2 : d.hard_upper_limit < ((t.stop : ℚ) - (t.start : ℚ)) / (a.sample_rate_hz : ℚ)
    · rw [if_neg (by rw [not_and_or, not_le, not_le]; exact Or.inr h2)]
      simp [List.filterMap_cons, h1, h2]
    · rw [if_pos ⟨not_lt.mp h1, not_lt.mp h2⟩]
      simp [List.filterMap_cons, h1, h2]

/-- **C8, counterexample.** The claim as frozen says a below-`soft_min`
segment with no admissible merge "is then rejected by the hard-lower filter —
it is not rescued by overlap padding — so it never appears in the shaper's
final timestamp output".  A lone 7-second segment at the default configuration
(`soft_lower = 10`, `hard_lower = 5`) is below `soft_min` and unmergeable
(there is no neighbor), the scan skips it — yet it passes the hard-limit
filter and appears in the final output as `(0, 7)`. -/
theorem C8_counterexample :
    (112000 : ℤ) - 0 < soft_min_samples defaultAudio defaultDuration ∧
    mergeStep defaultAudio defaultDuration ([⟨0, 112000⟩], 0) = some ([⟨0, 112000⟩], 1) ∧
    process_raw_segments defaultAudio defaultDuration [⟨0, 112000⟩] 112000 =
      [((0 : ℚ), (7 : ℚ))] := by
  refine ⟨by decide, by decide, ?_⟩
  have happ : apply_overlap defaultAudio defaultDuration [⟨0, 112000⟩] 112000 =
      [⟨0, 112000⟩] := by decide
  rw [process_raw_singleton defaultAudio defaultDuration _ _ _ happ]
  rw [if_pos (by constructor <;> decide)]
  decide

/-- **C8 (amended).** A segment whose duration is below `soft_min` and that
has no admissible merge with either neighbor is skipped by the merger (the
scan index advances with the list unchanged); it is then removed by the
hard-limit filter iff its *overlap-padded* duration falls outside
`[hard_lower, hard_upper]` — so overlap padding *can* rescue it, and it
appears in the final output whenever its padded duration lies within the hard
limits (stated for a lone unmergeable segment). -/
theorem C8_amended (a : AudioSettings) (d : DurationSettings) :
    (∀ (segs : List Seg) (i : ℕ) (cur : Seg),
      segs[i]? = some cur →
      cur.stop - cur.start < soft_min_samples a d →
      (∀ l, i ≠ 0 → segs[i-1]? = some l →
        ¬ admissible a d (cur.start - l.stop) (cur.stop - l.start)) →
      (∀ r, segs[i+1]? = some r →
        ¬ admissible a d (r.start - cur.stop) (r.stop - cur.start)) →
      mergeStep a d (segs, i) = some (segs, i + 1)) ∧
    (∀ (s t : Seg) (L : ℤ), apply_overlap a d [s] L = [t] →
      merge_short_segments a d [s] = [s] ∧
      process_raw_segments a d [s] L =
        (if d.hard_lower_limit ≤ ((t.stop - t.start : ℤ) : ℚ) / (a.sample_rate_hz : ℚ) ∧
            ((t.stop - t.start : ℤ) : ℚ) / (a.sample_rate_hz : ℚ) ≤ d.hard_upper_limit then
          [((t.start : ℚ) / (a.sample_rate_hz : ℚ), (t.stop : ℚ) / (a.sample_rate_hz : ℚ))]
        else [])) := by
  constructor
  · intro segs i cur hc hshort hnoleft hnoright
    have hnd : ¬ soft_min_samples a d ≤ cur.stop - cur.start := not_le.mpr hshort
    by_cases hi0 : i = 0
    · cases hr : segs[i+1]? with
      | none => simp only [mergeStep, hc, if_neg hnd, if_pos hi0, hr]
      | some r =>
        simp only [mergeStep, hc, if_neg hnd, if_pos hi0, hr]
        rw [if_neg (hnoright r hr)]
    · have hlen := (List.getElem?_eq_some.mp hc).1
      have h1 : i - 1 < segs.length := by omega
      obtain ⟨l, hl⟩ : ∃ l, segs[i-1]? = some l := ⟨_, List.getElem?_eq_getElem h1⟩
      cases hr : segs[i+1]? with
      | none =>
        simp only [mergeStep, hc, if_neg hnd, if_neg hi0, hl, hr]
        rw [if_neg (hnoleft l hi0 hl)]
      | some r =>
        simp only [mergeStep, hc, if_neg hnd, if_neg hi0, hl, hr]
        rw [if_neg (by rintro ⟨hal, _⟩; exact hnoleft l hi0 hl hal),
          if_neg (hnoright r hr)]
  · intro s t L happ
    exact ⟨merge_short_segments_singleton a d s,
      process_raw_singleton a d s t L happ⟩

/-- Witness for the amended C8 at a concrete input: a lone 4-second segment
spanning the whole buffer at the default configuration is skipped and then
dropped by the filter (padding is clamped at the buffer bounds, so its padded
duration stays 4 s, below `hard_lower = 5`). -/
theorem C8_witness :
    mergeStep defaultAudio defaultDuration ([⟨0, 64000⟩], 0) = some ([⟨0, 64000⟩], 0 + 1) ∧
    merge_short_segments defaultAudio defaultDuration [⟨0, 64000⟩] = [⟨0, 64000⟩] ∧
    process_raw_segments defaultAudio defaultDuration [⟨0, 64000⟩] 64000 =
      (if defaultDuration.hard_lower_limit ≤
            (((64000 : ℤ) - 0 : ℤ) : ℚ) / (defaultAudio.sample_rate_hz : ℚ) ∧
          (((64000 : ℤ) - 0 : ℤ) : ℚ) / (defaultAudio.sample_rate_hz : ℚ) ≤
            defaultDuration.hard_upper_limit then
        [(((0 : ℤ) : ℚ) / (defaultAudio.sample_rate_hz : ℚ),
          ((64000 : ℤ) : ℚ) / (defaultAudio.sample_rate_hz : ℚ))]
      else []) :=
  ⟨(C8_amended defaultAudio defaultDuration).1 [⟨0, 64000⟩] 0 ⟨0, 64000⟩
      (by decide) (by decide) (by intro l hne _; exact absurd rfl hne)
      (by intro r hr; exact Option.noConfusion hr),
   ((C8_amended defaultAudio defaultDuration).2 ⟨0, 64000⟩ ⟨0, 64000⟩ 64000 (by decide)).1,
   ((C8_amended defaultAudio defaultDuration).2 ⟨0, 64000⟩ ⟨0, 64000⟩ 64000 (by decide)).2⟩

/-- Configuration used by the C7 counterexample: defaults with a very small
positive `overlap` whose half, in samples, rounds up. -/
def cfgC7 : DurationSettings :=
  { soft_lower_limit := 10, soft_upper_limit := 15, hard_lower_limit := 5,
    hard_upper_limit := 30, overlap := 1/8192, maximum_merge_gap_duration := 1 }

/-- **C7, counterexample.** With `overlap = 1/8192 s` at 16 kHz the padding is
`pad = round((overlap/2)·rate) = round(0.9765625) = 1` sample, so two touching
sorted disjoint intervals come out overlapping by `2` samples `= 1/8000 s`,
which exceeds `overlap`: the claim's "consecutive output intervals overlap by
at most `overlap` seconds" fails (rounding can push the total overlap up to
one extra sample). -/
theorem C7_counterexample :
    SortedDisjoint [⟨10, 20⟩, ⟨20, 30⟩] ∧
    (0 : ℚ) < cfgC7.overlap ∧
    apply_overlap defaultAudio cfgC7 [⟨10, 20⟩, ⟨20, 30⟩] 1000 = [⟨9, 21⟩, ⟨19, 31⟩] ∧
    ¬ ((((21 : ℤ) - 19 : ℤ) : ℚ) / (defaultAudio.sample_rate_hz : ℚ) ≤ cfgC7.overlap) :=
  ⟨by decide, by decide, by decide, by decide⟩

/-- **C7 (amended).** For every sorted, pairwise-disjoint interval list
entering overlap padding: if `overlap = 0` the list is returned unchanged, so
consecutive output intervals are disjoint in sample coordinates; if
`overlap > 0` each interval becomes
`(max(0, start − pad), min(buffer_len, end + pad))` with
`pad = round((overlap / 2) · rate)`, and consecutive output intervals overlap
by at most `2·pad` samples, i.e. at most `overlap + 1/rate` seconds (the
`1/rate` slack, one sample, is what rounding can add; the original "at most
`overlap` seconds" fails by the counterexample above). -/
theorem C7_amended (a : AudioSettings) (d : DurationSettings)
    (segs : List Seg) (L : ℤ) (hsorted : SortedDisjoint segs) :
    (d.overlap = 0 → apply_overlap a d segs L = segs ∧
      SortedDisjoint (apply_overlap a d segs L)) ∧
    (0 < d.overlap →
      apply_overlap a d segs L = segs.map (fun s =>
        ⟨max 0 (s.start - seconds_to_samples (d.overlap / 2) a.sample_rate_hz),
         min L (s.stop + seconds_to_samples (d.overlap / 2) a.sample_rate_hz)⟩)) ∧
    (0 < d.overlap → 0 < a.sample_rate_hz →
      List.Chain' (fun x y => ((x.stop - y.start : ℤ) : ℚ) / (a.sample_rate_hz : ℚ) ≤
        d.overlap + 1 / (a.sample_rate_hz : ℚ)) (apply_overlap a d segs L)) := by
  refine ⟨?_, ?_, ?_⟩
  · intro h0
    have he : apply_overlap a d segs L = segs := by
      simp [apply_overlap, le_of_eq h0]
    exact ⟨he, by rw [he]; exact hsorted⟩
  · intro hov
    simp only [apply_overlap, if_neg (not_le.mpr hov)]
  · intro hov hrate
    have hmap : apply_overlap a d segs L = segs.map (fun s =>
        ⟨max 0 (s.start - seconds_to_samples (d.overlap / 2) a.sample_rate_hz),
         min L (s.stop + seconds_to_samples (d.overlap / 2) a.sample_rate_hz)⟩) := by
      simp only [apply_overlap, if_neg (not_le.mpr hov)]
    rw [hmap, List.chain'_map]
    refine hsorted.imp ?_
    intro x y hxy
    set p := seconds_to_samples (d.overlap / 2) a.sample_rate_hz with hp
    have hrq : (0 : ℚ) < (a.sample_rate_hz : ℚ) := by exact_mod_cast hrate
    have hple : (p : ℚ) ≤ d.overlap / 2 * (a.sample_rate_hz : ℚ) + 1/2 := by
      rw [hp, seconds_to_samples]
      exact pyRound_le _
    have hsample : min L (x.stop + p) - max 0 (y.start - p) ≤ 2 * p := by
      have h1 : min L (x.stop + p) ≤ x.stop + p := min_le_right _ _
      have h2 : y.start - p ≤ max 0 (y.start - p) := le_max_right _ _
      omega
    calc ((min L (x.stop + p) - max 0 (y.start - p) : ℤ) : ℚ) / (a.sample_rate_hz : ℚ)
        ≤ ((2 * p : ℤ) : ℚ) / (a.sample_rate_hz : ℚ) :=
          div_le_div_of_nonneg_right (by exact_mod_cast hsample) hrq.le
      _ ≤ (d.overlap * (a.sample_rate_hz : ℚ) + 1) / (a.sample_rate_hz : ℚ) := by
          apply div_le_div_of_nonneg_right ?_ hrq.le
          push_cast
          linarith
      _ = d.overlap + 1 / (a.sample_rate_hz : ℚ) := by
          field_simp

/-- Witness for the amended C7 at a concrete sorted input with the default
configuration (`overlap = 0.5`, `pad = 4000`). -/
theorem C7_witness :
    (defaultDuration.overlap = 0 →
      apply_overlap defaultAudio defaultDuration [⟨10, 20⟩, ⟨20, 30⟩] 1000 =
        [⟨10, 20⟩, ⟨20, 30⟩] ∧
      SortedDisjoint (apply_overlap defaultAudio defaultDuration
        [⟨10, 20⟩, ⟨20, 30⟩] 1000)) ∧
    (0 < defaultDuration.overlap →
      apply_overlap defaultAudio defaultDuration [⟨10, 20⟩, ⟨20, 30⟩] 1000 =
        ([⟨10, 20⟩, ⟨20, 30⟩] : List Seg).map (fun s =>
          ⟨max 0 (s.start - seconds_to_samples (defaultDuration.overlap / 2)
              defaultAudio.sample_rate_hz),
           min 1000 (s.stop + seconds_to_samples (defaultDuration.overlap / 2)
              defaultAudio.sample_rate_hz)⟩)) ∧
    (0 < defaultDuration.overlap → 0 < defaultAudio.sample_rate_hz →
      List.Chain' (fun x y => ((x.stop - y.start : ℤ) : ℚ) /
          (defaultAudio.sample_rate_hz : ℚ) ≤
        defaultDuration.overlap + 1 / (defaultAudio.sample_rate_hz : ℚ))
        (apply_overlap defaultAudio defaultDuration [⟨10, 20⟩, ⟨20, 30⟩] 1000)) :=
  C7_amended defaultAudio defaultDuration [⟨10, 20⟩, ⟨20, 30⟩] 1000 (by decide)

/-- Audio settings used by the C4 counterexample: sample rate 3 Hz, at which
`minimum_silence_duration · rate = 1.5` so that truncation (1) and rounding
(2) disagree. -/
def audioC4 : AudioSettings :=
  { sample_rate_hz := 3, channels := 1, lufs_db := -23 }

/-- **C4, counterexample.** The claim says the silence-gap merging step uses
`min_gap_samples = seconds_to_samples(minimum_silence_duration, rate)
= round(minimum_silence_duration · rate)`; the code computes
`int(minimum_silence_duration · rate)` (truncation, `strategy.py:68`).  At
`minimum_silence_duration = 0.5` and `rate = 3`, truncation gives 1 and
rounding gives 2: on the intervals `[(0,10), (11,13)]` (gap 1) the code leaves
the intervals unmerged while the claim's reference merges them. -/
theorem C4_counterexample :
    code_gap_merge audioC4 defaultSilence [(0, 10), (11, 13)] = [(0, 10), (11, 13)] ∧
    referenceGapMerge
      (seconds_to_samples defaultSilence.minimum_silence_duration audioC4.sample_rate_hz)
      [(0, 10), (11, 13)] = [(0, 13)] ∧
    code_gap_merge audioC4 defaultSilence [(0, 10), (11, 13)] ≠
      referenceGapMerge
        (seconds_to_samples defaultSilence.minimum_silence_duration audioC4.sample_rate_hz)
        [(0, 10), (11, 13)] :=
  ⟨by decide, by decide, by decide⟩

/-- **C4 (amended).** For every raw interval list and every
`(minimum_silence_duration, rate)`, the silence-gap merging step equals the
reference merge of the spec — iterate intervals in order and, while the next
interval's start minus the current interval's end is strictly less than
`min_gap_samples`, extend the current interval's end to the next interval's
end, otherwise emit the current interval and advance — with
`min_gap_samples = int(minimum_silence_duration · rate)` (truncation toward
zero, not `round`). -/
theorem C4_amended (a : AudioSettings) (ss : SilenceStrategySettings)
    (raw : List (ℤ × ℤ)) :
    code_gap_merge a ss raw =
      referenceGapMerge (pyInt (ss.minimum_silence_duration * (a.sample_rate_hz : ℚ)))
        raw := by
  have haux : ∀ (minGap cs ce : ℤ) (rest : List (ℤ × ℤ)),
      gapMergeAux minGap cs ce rest = referenceGapMergeAux minGap cs ce rest := by
    intro minGap cs ce rest
    induction rest generalizing cs ce with
    | nil => rfl
    | cons p rest ih =>
      obtain ⟨ns, ne⟩ := p
      simp only [gapMergeAux, referenceGapMergeAux]
      split
      · exact ih cs ne
      · rw [ih ns ne]
  cases raw with
  | nil => rfl
  | cons p rest =>
    obtain ⟨s, e⟩ := p
    simp only [code_gap_merge, merge_silence_intervals, referenceGapMerge]
    exact haux _ s e rest

/-- **C6.** `segment_array_to_timestamps` of the silence strategy raises
`EmptySegmentationError` if and only if the shaping pipeline (gap merge, short
merge, overlap, hard-limit filter) produces an empty timestamp list (stated
for successful detection: when the detector itself fails,
`SilenceDetectionError` is raised before shaping runs); in particular, for a
single raw non-silence interval of 45 s with the default `hard_upper = 30 s`
(scenario S4), the output is empty and `EmptySegmentationError` is raised. -/
theorem C6_empty_segmentation_iff :
    (∀ (a : AudioSettings) (d : DurationSettings) (ss : SilenceStrategySettings)
        (raw : List (ℤ × ℤ)) (L : ℤ),
      (∃ msg, silence_segment_array_to_timestamps a d ss (.ok raw) L =
          .error (.emptySegmentation msg)) ↔
        process_raw_segments a d ((code_gap_merge a ss raw).map fun p => ⟨p.1, p.2⟩) L
          = []) ∧
    silence_segment_array_to_timestamps defaultAudio defaultDuration defaultSilence
      (.ok [(0, 720000)]) 720000 = .error (.emptySegmentation emptyMsg) := by
  constructor
  · intro a d ss raw L
    constructor
    · rintro ⟨msg, hmsg⟩
      by_contra hne
      simp only [silence_segment_array_to_timestamps] at hmsg
      rw [if_neg hne] at hmsg
      exact Except.noConfusion hmsg
    · intro he
      refine ⟨emptyMsg, ?_⟩
      simp only [silence_segment_array_to_timestamps]
      rw [if_pos he]
  · decide

/-- **C5, counterexample.** The claim says a domain error raised by
`segment_array_to_timestamps` (such as `EmptySegmentationError`) propagates
unchanged through `segment_array_to_files`.  On a 45-second single interval
with defaults, `segment_array_to_timestamps` raises `EmptySegmentationError`,
but `segment_array_to_files` catches it (`base.py:77` catches every
`Exception`) and raises a different error, `StrategyError`. -/
theorem C5_counterexample :
    silence_segment_array_to_timestamps defaultAudio defaultDuration defaultSilence
      (.ok [(0, 720000)]) 720000 = .error (.emptySegmentation emptyMsg) ∧
    silence_segment_array_to_files defaultAudio defaultDuration defaultSilence
      defaultFile (.ok [(0, 720000)]) 720000 "recording" =
      .error (.strategyError "SilenceStrategy"
        ("Failed to generate timestamps: " ++ emptyMsg)) ∧
    SegError.strategyError "SilenceStrategy"
        ("Failed to generate timestamps: " ++ emptyMsg) ≠
      SegError.emptySegmentation emptyMsg :=
  ⟨by decide, by decide, by decide⟩

/-- **C5 (amended).** Every error raised by `segment_array_to_timestamps` —
domain error or not — is caught by `segment_array_to_files` and rewrapped as
`StrategyError(class_name, "Failed to generate timestamps: " + str(e))`
preserving the cause's message; no error of the timestamp phase propagates
unchanged. -/
theorem C5_amended (a : AudioSettings) (fs : FileSettings) (className : String)
    (e : SegError) (L : ℤ) (name : String) :
    segment_array_to_files a fs className (.error e) L name =
      .error (.strategyError className ("Failed to generate timestamps: " ++ e.msg)) :=
  rfl

/-- **C3.** The claim says `segment_array_to_files` resolves the output
directory from the configured per-original and per-segment subdirectory flags
and returns an `n`-entry map.  The code cannot: `base.py:107` reads
`file_settings.output_in_subdirectory` and
`file_settings.output_segment_in_subdirectory`, but the `FileSettings`
pydantic model declares `output_in_subdirectories` (plural) and no per-segment
flag at all, so the first loop iteration raises `AttributeError` — here
evaluated on a valid one-timestamp input. -/
theorem C3_attribute_error :
    segment_array_to_files defaultAudio defaultFile "SilenceStrategy"
      (.ok [(0, 1)]) 16000 "recording" =
      .error (.attributeError "output_in_subdirectory") := by decide

end VAS
